import Mathlib

/-!
Shallow embedding of the portfolio ledger and decision/risk components of the
multiagent trade system.

Sources embedded:
* `src/data_module/data_manager.py` — `DataManager.record_buy`, `record_sell`,
  `record_deposit`, `record_withdrawal`, `get_portfolio_value`, `_get_holding`,
  `_update_holding_after_buy`, `_update_holding_after_sell`.
* `src/data_module/repositories/portfolio_repository.py` — the persisted tables
  (`holdings` with UNIQUE symbol, `trades` with UNIQUE trade_id, `capital_flows`)
  and the repository operations `save_trade`, `create_holding`, `update_holding`,
  `delete_holding`, `get_capital_flow_summary`.
* `src/trading_service/agents/decision_manager.py` — `DecisionManager.make_decision`
  (the decision logic over the externally produced `market_bias` scalar).
* `src/risk_control/risk_manager.py` — `RiskManager.validate_trade`.

Python floats are modelled as rationals (`ℚ`); all arithmetic appearing in these
code paths is exact on the concrete inputs used.  The sqlite tables are modelled
as lists; AUTOINCREMENT ids as a `nextHoldingId` counter; uuid-generated trade
ids as an explicit `tid` argument (the generator is external nondeterminism).
Python exceptions (assert / ValueError / sqlite IntegrityError) are modelled by
`Except`-style results: each operation returns the observable database state
together with either the value the Python function returns or the error raised.
-/

namespace TradeSystem

/-- Row of the `holdings` table (`symbol` is UNIQUE in the schema). -/
structure Holding where
  id : Nat
  symbol : String
  quantity : ℚ
  avg_entry_price : ℚ
  deriving DecidableEq, Repr

/-- Row of the `trades` table (`trade_id` is UNIQUE in the schema); fields kept
are the ones the embedded code paths read or the claims mention. -/
structure Trade where
  trade_id : String
  symbol : String
  action : String
  quantity : ℚ
  price : ℚ
  total_value : ℚ
  fees : ℚ
  net_amount : ℚ
  realized_pnl : Option ℚ
  deriving DecidableEq, Repr

/-- Value of the `type` column of `capital_flows`. -/
inductive FlowType where
  | DEPOSIT
  | WITHDRAWAL
  deriving DecidableEq, Repr

/-- Row of the `capital_flows` table. -/
structure CapitalFlow where
  ftype : FlowType
  amount : ℚ
  deriving DecidableEq, Repr

/-- Observable database state: the three tables the ledger code touches, plus
the AUTOINCREMENT counter of the `holdings` table. -/
structure LedgerState where
  holdings : List Holding
  trades : List Trade
  flows : List CapitalFlow
  nextHoldingId : Nat
  deriving DecidableEq, Repr

/-- Fresh database (empty tables; sqlite AUTOINCREMENT starts at 1). -/
def emptyLedger : LedgerState := ⟨[], [], [], 1⟩

/-- Errors raised by the embedded Python code: the two `assert`s of
`record_buy`/`record_sell`, the asserts of `record_deposit`/`record_withdrawal`,
the two `ValueError`s of `record_sell`, and the sqlite IntegrityError raised by
`save_trade` when the UNIQUE constraint on `trade_id` is violated. -/
inductive LedgerErr where
  | invalidAmount
  | invalidQuantity
  | invalidPrice
  | noSuchHolding
  | insufficientQuantity
  | duplicateTradeId
  deriving DecidableEq, Repr

/-- Python's `str.upper()` (ASCII-faithful), mapping `Char.toUpper` over the
string's characters. -/
def pyUpper (s : String) : String := ⟨s.data.map Char.toUpper⟩

/-- `DataManager._get_holding`: scan the holdings for the first row whose
symbol equals `symbol` exactly (no case normalisation). -/
def findHolding : List Holding → String → Option Holding
  | [], _ => none
  | h :: rest, s => if h.symbol = s then some h else findHolding rest s

/-- Whether a trade with this `trade_id` already exists in the `trades` table. -/
def tradeIdUsed (trades : List Trade) (tid : String) : Bool :=
  trades.any (fun t => t.trade_id == tid)

/-- `PortfolioRepository.save_trade`: INSERT into `trades`; the UNIQUE
constraint on `trade_id` makes the insert raise (and persist nothing) when the
id is already present. -/
def saveTrade (st : LedgerState) (t : Trade) : Except LedgerErr LedgerState :=
  if tradeIdUsed st.trades t.trade_id then .error .duplicateTradeId
  else .ok { st with trades := st.trades ++ [t] }

/-- `PortfolioRepository.update_holding` specialised to the buy path: set
`quantity` and `avg_entry_price` of every row with the given id. -/
def updateHoldingQtyAvg (holdings : List Holding) (hid : Nat) (newQty newAvg : ℚ) :
    List Holding :=
  holdings.map (fun h =>
    if h.id = hid then { h with quantity := newQty, avg_entry_price := newAvg } else h)

/-- `PortfolioRepository.update_holding` specialised to the sell path: set only
`quantity` of every row with the given id. -/
def updateHoldingQty (holdings : List Holding) (hid : Nat) (newQty : ℚ) :
    List Holding :=
  holdings.map (fun h => if h.id = hid then { h with quantity := newQty } else h)

/-- `PortfolioRepository.delete_holding`: DELETE the row with the given id. -/
def deleteHolding (holdings : List Holding) (hid : Nat) : List Holding :=
  holdings.filter (fun h => h.id != hid)

/-- `DataManager._update_holding_after_buy`, acting on the `holdings` table and
its AUTOINCREMENT counter: either fold the buy into the existing row's weighted
average, or `create_holding` a new row with `quantity` and `avg_entry_price`
equal to the buy's quantity and price. -/
def update_holding_after_buy (holdings : List Holding) (nextId : Nat)
    (symbol : String) (quantity price : ℚ) : List Holding × Nat :=
  match findHolding holdings symbol with
  | some holding =>
    let old_qty := holding.quantity
    let old_price := holding.avg_entry_price
    let new_qty := old_qty + quantity
    let new_avg_price := ((old_qty * old_price) + (quantity * price)) / new_qty
    (updateHoldingQtyAvg holdings holding.id new_qty new_avg_price, nextId)
  | none =>
    (holdings ++ [⟨nextId, symbol, quantity, price⟩], nextId + 1)

/-- `DataManager._update_holding_after_sell`: subtract the sold quantity; if the
new quantity is ≤ 0 the row is deleted, otherwise only `quantity` is updated.
(The Python helper re-fetches the holding and would crash on `None`; in the
`record_sell` path the holding always exists, so the `none` branch is inert.) -/
def update_holding_after_sell (holdings : List Holding) (symbol : String)
    (quantity : ℚ) : List Holding :=
  match findHolding holdings symbol with
  | none => holdings
  | some holding =>
    let new_qty := holding.quantity - quantity
    if new_qty ≤ 0 then deleteHolding holdings holding.id
    else updateHoldingQty holdings holding.id new_qty

/-- The BUY trade record built by `DataManager.record_buy` (symbol is stored
upper-cased; `realized_pnl` is None for buys). -/
def mkBuyTrade (symbol : String) (quantity price fees : ℚ) (tid : String) : Trade :=
  { trade_id := tid
    symbol := pyUpper symbol
    action := "BUY"
    quantity := quantity
    price := price
    total_value := quantity * price
    fees := fees
    net_amount := quantity * price + fees
    realized_pnl := none }

/-- The SELL trade record built by `DataManager.record_sell` against a holding
with the given average entry price. -/
def mkSellTrade (symbol : String) (quantity price fees avgEntry : ℚ)
    (tid : String) : Trade :=
  { trade_id := tid
    symbol := pyUpper symbol
    action := "SELL"
    quantity := quantity
    price := price
    total_value := quantity * price
    fees := fees
    net_amount := quantity * price - fees
    realized_pnl := some (quantity * price - avgEntry * quantity - fees) }

/-- `DataManager.record_buy`: assert quantity/price positive, save the trade
(upper-cased symbol, fresh uuid modelled by `tid`), then update the holding
keyed by the exact `symbol` string.  Returns the observable state together with
the returned trade or the raised error; a raise before a write leaves the state
unchanged. -/
def recordBuy (st : LedgerState) (symbol : String) (quantity price fees : ℚ)
    (tid : String) : LedgerState × Except LedgerErr Trade :=
  if quantity ≤ 0 then (st, .error .invalidQuantity)
  else if price ≤ 0 then (st, .error .invalidPrice)
  else
    let trade := mkBuyTrade symbol quantity price fees tid
    match saveTrade st trade with
    | .error e => (st, .error e)
    | .ok st1 =>
      let r := update_holding_after_buy st1.holdings st1.nextHoldingId symbol quantity price
      ({ st1 with holdings := r.1, nextHoldingId := r.2 }, .ok trade)

/-- `DataManager.record_sell`: assert quantity/price positive, look up the
holding by the exact `symbol` string (ValueError if absent, ValueError if it
holds strictly less than the quantity sold), compute realized P&L against the
holding's average entry price, save the trade, then update the holding. -/
def recordSell (st : LedgerState) (symbol : String) (quantity price fees : ℚ)
    (tid : String) : LedgerState × Except LedgerErr Trade :=
  if quantity ≤ 0 then (st, .error .invalidQuantity)
  else if price ≤ 0 then (st, .error .invalidPrice)
  else
    match findHolding st.holdings symbol with
    | none => (st, .error .noSuchHolding)
    | some holding =>
      if holding.quantity < quantity then (st, .error .insufficientQuantity)
      else
        let trade := mkSellTrade symbol quantity price fees holding.avg_entry_price tid
        match saveTrade st trade with
        | .error e => (st, .error e)
        | .ok st1 =>
          ({ st1 with holdings := update_holding_after_sell st1.holdings symbol quantity },
           .ok trade)

/-- `DataManager.record_deposit`: assert amount positive, append a DEPOSIT flow. -/
def recordDeposit (st : LedgerState) (amount : ℚ) :
    LedgerState × Except LedgerErr CapitalFlow :=
  if amount ≤ 0 then (st, .error .invalidAmount)
  else ({ st with flows := st.flows ++ [⟨.DEPOSIT, amount⟩] }, .ok ⟨.DEPOSIT, amount⟩)

/-- `DataManager.record_withdrawal`: assert amount positive, append a
WITHDRAWAL flow. -/
def recordWithdrawal (st : LedgerState) (amount : ℚ) :
    LedgerState × Except LedgerErr CapitalFlow :=
  if amount ≤ 0 then (st, .error .invalidAmount)
  else ({ st with flows := st.flows ++ [⟨.WITHDRAWAL, amount⟩] }, .ok ⟨.WITHDRAWAL, amount⟩)

/-- `PortfolioRepository.get_capital_flow_summary`: SUM of amounts of one flow
type. -/
def sumFlows (flows : List CapitalFlow) (ft : FlowType) : ℚ :=
  ((flows.filter (fun f => f.ftype == ft)).map CapitalFlow.amount).sum

/-- One element of the `positions` list built by
`DataManager.get_portfolio_value`. -/
structure PositionData where
  symbol : String
  quantity : ℚ
  avg_entry_price : ℚ
  current_price : Option ℚ
  market_value : ℚ
  cost_basis : ℚ
  unrealized_pnl : ℚ
  deriving DecidableEq, Repr

/-- The dictionary returned by `DataManager.get_portfolio_value`. -/
structure PortfolioValue where
  total_equity : ℚ
  positions_value : ℚ
  total_pnl : ℚ
  num_positions : Nat
  positions : List PositionData
  net_contributed : ℚ
  total_deposits : ℚ
  total_withdrawals : ℚ
  deriving DecidableEq, Repr

/-- The position record built for one holding inside the loop of
`get_portfolio_value`: an unavailable price (`None`) is treated as 0 via
`current_price or 0`, without raising. -/
def mkPositionData (priceLookup : String → Option ℚ) (h : Holding) : PositionData :=
  let current_price := priceLookup h.symbol
  let market_value := h.quantity * current_price.getD 0
  let cost_basis := h.quantity * h.avg_entry_price
  { symbol := h.symbol
    quantity := h.quantity
    avg_entry_price := h.avg_entry_price
    current_price := current_price
    market_value := market_value
    cost_basis := cost_basis
    unrealized_pnl := market_value - cost_basis }

/-- `DataManager.get_portfolio_value`: fold over the holdings accumulating
`positions_value` and the per-position records exactly as the Python loop does,
then aggregate `total_equity`, `total_pnl` and `net_contributed`.  The price
feed is injected as `priceLookup` (returns `none` when unavailable). -/
def get_portfolio_value (st : LedgerState) (priceLookup : String → Option ℚ) :
    PortfolioValue :=
  let deposits := sumFlows st.flows .DEPOSIT
  let withdrawals := sumFlows st.flows .WITHDRAWAL
  let net_contributed := deposits - withdrawals
  let acc := st.holdings.foldl
    (fun (acc : ℚ × List PositionData) h =>
      let pd := mkPositionData priceLookup h
      (acc.1 + pd.market_value, acc.2 ++ [pd]))
    (0, [])
  let positions_value := acc.1
  let total_equity := positions_value
  let total_pnl := total_equity - net_contributed
  { total_equity := total_equity
    positions_value := positions_value
    total_pnl := total_pnl
    num_positions := acc.2.length
    positions := acc.2
    net_contributed := net_contributed
    total_deposits := deposits
    total_withdrawals := withdrawals }

/-- Modelled from the code structure of `record_buy` for fault analysis:
`PortfolioRepository.save_trade` commits on its own sqlite connection and
returns before `_update_holding_after_buy` opens a second connection.  If that
second write fails (storage unavailable), the Python exception propagates but
the trade insert has already been durably committed.  This function returns the
observable state at that fault point (`none` when the fault point is never
reached because an earlier check raised first, leaving nothing committed). -/
def recordBuyHoldingWriteFault (st : LedgerState) (symbol : String)
    (quantity price fees : ℚ) (tid : String) : Option LedgerState :=
  if quantity ≤ 0 then none
  else if price ≤ 0 then none
  else
    match saveTrade st (mkBuyTrade symbol quantity price fees tid) with
    | .error _ => none
    | .ok st1 => some st1

/-- Arguments of one `record_buy` call in a sequence of buys (the uuid-generated
trade id is the explicit `tid`). -/
structure BuyCall where
  tid : String
  quantity : ℚ
  price : ℚ
  fees : ℚ
  deriving DecidableEq, Repr

/-- A sequence of `record_buy` calls against one symbol, threading the ledger
state. -/
def recordBuys (st : LedgerState) (symbol : String) : List BuyCall → LedgerState
  | [] => st
  | b :: rest => recordBuys (recordBuy st symbol b.quantity b.price b.fees b.tid).1 symbol rest

/-- Total quantity bought over a sequence of buys. -/
def sumQty (buys : List BuyCall) : ℚ := (buys.map BuyCall.quantity).sum

/-- Total cost (Σ quantityᵢ·priceᵢ) over a sequence of buys. -/
def sumCost (buys : List BuyCall) : ℚ := (buys.map (fun b => b.quantity * b.price)).sum

/-- Trading actions produced by `DecisionManager.make_decision`.  The source
has exactly one closing action, the string `'CLOSE'`, used for both long and
short positions. -/
inductive Action where
  | HOLD
  | BUY
  | SELL
  | CLOSE
  deriving DecidableEq, Repr

/-- The decision dictionary built by `DecisionManager.make_decision` (the keys
the decision logic writes). -/
structure Decision where
  action : Action
  confidence : ℚ
  reason : String
  deriving DecidableEq, Repr

/-- `DecisionManager.make_decision`, as a function of the externally produced
`market_bias` scalar and the current position's `side` field (`none` models a
falsy `current_position`).  Default HOLD with confidence 0; entry rule when
`abs market_bias > 0.3`; position-management branch replaces the action with
CLOSE (touching `action` and `reason` but not `confidence`) when LONG and
bias < −0.2, or SHORT and bias > 0.2. -/
def makeDecision (marketBias : ℚ) (currentPosition : Option String) : Decision :=
  let d0 : Decision := ⟨Action.HOLD, 0, "Insufficient conviction for trade"⟩
  let d1 : Decision :=
    if 3/10 < |marketBias| then
      if 0 < marketBias then ⟨Action.BUY, marketBias, "Strong bullish conviction"⟩
      else ⟨Action.SELL, |marketBias|, "Strong bearish conviction"⟩
    else d0
  match currentPosition with
  | none => d1
  | some side =>
    if side = "LONG" then
      if marketBias < -(2/10) then
        ⟨Action.CLOSE, d1.confidence, "Closing long position due to bearish signals"⟩
      else d1
    else if side = "SHORT" then
      if 2/10 < marketBias then
        ⟨Action.CLOSE, d1.confidence, "Closing short position due to bullish signals"⟩
      else d1
    else d1

/-- The validation dictionary returned by `RiskManager.validate_trade`. -/
structure Validation where
  valid : Bool
  reason : String
  deriving DecidableEq, Repr

/-- The rejection reason string `RiskManager.validate_trade` builds when the
drawdown circuit breaker fires; it names the configured threshold. -/
def maxDrawdownRejectReason (maxDrawdown : ℚ) : String :=
  "Maximum drawdown of " ++ toString (maxDrawdown * 100) ++ "% exceeded"

/-- `RiskManager.validate_trade`: the trade dictionary is only logged, never
inspected — the sole rule compares the portfolio's drawdown against the
configured `max_drawdown` and rejects when `drawdown ≥ max_drawdown`.
`tradeAction` is carried to make the independence from the proposed action a
statement about this function. -/
def validate_trade (maxDrawdown : ℚ) (tradeAction : String) (drawdown : ℚ) :
    Validation :=
  if maxDrawdown ≤ drawdown then ⟨false, maxDrawdownRejectReason maxDrawdown⟩
  else ⟨true, "Trade meets risk parameters"⟩

/-! Helper lemmas about holding lookup and the table operations. -/

theorem findHolding_eq_none_iff {l : List Holding} {s : String} :
    findHolding l s = none ↔ ∀ x ∈ l, x.symbol ≠ s := by
  induction l with
  | nil => simp [findHolding]
  | cons y rest ih =>
    by_cases hy : y.symbol = s
    · simp [findHolding, hy]
    · simp [findHolding, hy, ih]

theorem findHolding_mem {l : List Holding} {s : String} {h0 : Holding}
    (h : findHolding l s = some h0) : h0 ∈ l ∧ h0.symbol = s := by
  induction l with
  | nil => simp [findHolding] at h
  | cons y rest ih =>
    by_cases hy : y.symbol = s
    · simp only [findHolding, if_pos hy] at h
      cases h
      exact ⟨List.mem_cons_self _ _, hy⟩
    · simp only [findHolding, if_neg hy] at h
      exact ⟨List.mem_cons_of_mem _ (ih h).1, (ih h).2⟩

theorem findHolding_append_of_none {l : List Holding} {s : String}
    (h : findHolding l s = none) (x : Holding) :
    findHolding (l ++ [x]) s = if x.symbol = s then some x else none := by
  induction l with
  | nil => simp [findHolding]
  | cons y rest ih =>
    by_cases hy : y.symbol = s
    · simp [findHolding, hy] at h
    · simp only [findHolding, if_neg hy] at h ⊢
      exact ih h

theorem findHolding_append_of_some {l : List Holding} {s : String} {h0 : Holding}
    (h : findHolding l s = some h0) (x : Holding) :
    findHolding (l ++ [x]) s = some h0 := by
  induction l with
  | nil => simp [findHolding] at h
  | cons y rest ih =>
    by_cases hy : y.symbol = s
    · simp only [findHolding, if_pos hy] at h ⊢
      exact h
    · simp only [findHolding, if_neg hy] at h ⊢
      exact ih h

theorem findHolding_append_ne {l : List Holding} {s : String} {x : Holding}
    (hx : x.symbol ≠ s) : findHolding (l ++ [x]) s = findHolding l s := by
  induction l with
  | nil => simp [findHolding, hx]
  | cons y rest ih =>
    by_cases hy : y.symbol = s
    · simp [findHolding, hy]
    · simp only [findHolding, if_neg hy]
      exact ih

theorem findHolding_updateQtyAvg {l : List Holding} {s : String} {h0 : Holding}
    (h : findHolding l s = some h0) (q a : ℚ) :
    findHolding (updateHoldingQtyAvg l h0.id q a) s =
      some ⟨h0.id, h0.symbol, q, a⟩ := by
  induction l with
  | nil => simp [findHolding] at h
  | cons y rest ih =>
    by_cases hy : y.symbol = s
    · simp only [findHolding, if_pos hy] at h
      cases h
      simp [updateHoldingQtyAvg, findHolding, hy]
    · simp only [findHolding, if_neg hy] at h
      by_cases hid : y.id = h0.id
      · simpa [updateHoldingQtyAvg, findHolding, hid, hy] using ih h
      · simpa [updateHoldingQtyAvg, findHolding, hid, hy] using ih h

theorem findHolding_updateQtyAvg_none {l : List Holding} {s : String}
    (h : findHolding l s = none) (hid : Nat) (q a : ℚ) :
    findHolding (updateHoldingQtyAvg l hid q a) s = none := by
  rw [findHolding_eq_none_iff] at h ⊢
  intro x hx
  simp only [updateHoldingQtyAvg, List.mem_map] at hx
  obtain ⟨y, hy, hyx⟩ := hx
  by_cases hyid : y.id = hid
  · simp only [if_pos hyid] at hyx
    subst hyx
    exact h y hy
  · simp only [if_neg hyid] at hyx
    subst hyx
    exact h y hy

theorem findHolding_updateQty {l : List Holding} {s : String} {h0 : Holding}
    (h : findHolding l s = some h0) (q : ℚ) :
    findHolding (updateHoldingQty l h0.id q) s =
      some ⟨h0.id, h0.symbol, q, h0.avg_entry_price⟩ := by
  induction l with
  | nil => simp [findHolding] at h
  | cons y rest ih =>
    by_cases hy : y.symbol = s
    · simp only [findHolding, if_pos hy] at h
      cases h
      simp [updateHoldingQty, findHolding, hy]
    · simp only [findHolding, if_neg hy] at h
      by_cases hid : y.id = h0.id
      · simpa [updateHoldingQty, findHolding, hid, hy] using ih h
      · simpa [updateHoldingQty, findHolding, hid, hy] using ih h

theorem findHolding_delete {l : List Holding} {s : String} {h0 : Holding}
    (hnodup : (l.map Holding.symbol).Nodup)
    (h : findHolding l s = some h0) :
    findHolding (deleteHolding l h0.id) s = none := by
  rw [findHolding_eq_none_iff]
  intro x hx
  simp only [deleteHolding, List.mem_filter, bne_iff_ne, ne_eq, decide_not,
    Bool.not_eq_false', decide_eq_true_eq] at hx
  obtain ⟨hmem, hidne⟩ := hx
  intro hxs
  obtain ⟨hm0, hs0⟩ := findHolding_mem h
  have : x = h0 :=
    List.inj_on_of_nodup_map hnodup hmem hm0 (by rw [hxs, hs0])
  exact hidne (by rw [this])

theorem tradeIdUsed_append (l : List Trade) (t : Trade) (tid : String) :
    tradeIdUsed (l ++ [t]) tid = (tradeIdUsed l tid || (t.trade_id == tid)) := by
  simp [tradeIdUsed, List.any_append]

/-- Reduction of `recordBuy` on valid inputs with a fresh trade id. -/
theorem recordBuy_eq (st : LedgerState) (sym : String) (q p fees : ℚ) (tid : String)
    (hq : 0 < q) (hp : 0 < p) (ht : tradeIdUsed st.trades tid = false) :
    recordBuy st sym q p fees tid =
      (⟨(update_holding_after_buy st.holdings st.nextHoldingId sym q p).1,
        st.trades ++ [mkBuyTrade sym q p fees tid],
        st.flows,
        (update_holding_after_buy st.holdings st.nextHoldingId sym q p).2⟩,
       .ok (mkBuyTrade sym q p fees tid)) := by
  simp [recordBuy, saveTrade, mkBuyTrade, ht, hq.not_le, hp.not_le]

/-- Reduction of `recordSell` on valid inputs against a sufficient holding with
a fresh trade id. -/
theorem recordSell_eq (st : LedgerState) (sym : String) (q p fees : ℚ) (tid : String)
    (h0 : Holding)
    (hq : 0 < q) (hp : 0 < p)
    (hh : findHolding st.holdings sym = some h0)
    (hle : q ≤ h0.quantity)
    (ht : tradeIdUsed st.trades tid = false) :
    recordSell st sym q p fees tid =
      (⟨update_holding_after_sell st.holdings sym q,
        st.trades ++ [mkSellTrade sym q p fees h0.avg_entry_price tid],
        st.flows,
        st.nextHoldingId⟩,
       .ok (mkSellTrade sym q p fees h0.avg_entry_price tid)) := by
  simp [recordSell, saveTrade, mkSellTrade, hh, ht, hq.not_le, hp.not_le,
    not_lt.mpr hle]

/-- Invariant carried through a sequence of buys: a holding with quantity `Q`
and average entry price `A` absorbs the buys into the running weighted
average. -/
theorem recordBuys_weighted_aux (buys : List BuyCall) :
    ∀ (st : LedgerState) (sym : String) (i : Nat) (Q A : ℚ),
      findHolding st.holdings sym = some ⟨i, sym, Q, A⟩ → 0 < Q →
      (∀ b ∈ buys, 0 < b.quantity ∧ 0 < b.price) →
      (buys.map BuyCall.tid).Nodup →
      (∀ b ∈ buys, tradeIdUsed st.trades b.tid = false) →
      findHolding (recordBuys st sym buys).holdings sym =
        some ⟨i, sym, Q + sumQty buys, (Q * A + sumCost buys) / (Q + sumQty buys)⟩ := by
  induction buys with
  | nil =>
    intro st sym i Q A hfind hQ _ _ _
    simpa [recordBuys, sumQty, sumCost, mul_div_cancel_left₀ A hQ.ne'] using hfind
  | cons b rest ih =>
    intro st sym i Q A hfind hQ hpos hnodup hfresh
    have hb := hpos b (List.mem_cons_self _ _)
    have hfr := hfresh b (List.mem_cons_self _ _)
    have hstep := recordBuy_eq st sym b.quantity b.price b.fees b.tid hb.1 hb.2 hfr
    set st1 := (recordBuy st sym b.quantity b.price b.fees b.tid).1 with hst1
    have hQ' : 0 < Q + b.quantity := add_pos hQ hb.1
    have hfind1 : findHolding st1.holdings sym =
        some ⟨i, sym, Q + b.quantity,
          (Q * A + b.quantity * b.price) / (Q + b.quantity)⟩ := by
      rw [hst1, hstep]
      simp only [update_holding_after_buy, hfind]
      exact findHolding_updateQtyAvg hfind _ _
    have htr1 : st1.trades = st.trades ++ [mkBuyTrade sym b.quantity b.price b.fees b.tid] := by
      rw [hst1, hstep]
    have hfresh1 : ∀ b' ∈ rest, tradeIdUsed st1.trades b'.tid = false := by
      intro b' hb'
      rw [htr1, tradeIdUsed_append, hfresh b' (List.mem_cons_of_mem _ hb'),
        Bool.false_or]
      have hne : b.tid ≠ b'.tid := by
        intro hcontra
        have : b.tid ∈ rest.map BuyCall.tid := by
          rw [hcontra]
          exact List.mem_map_of_mem _ hb'
        exact (List.nodup_cons.mp (by simpa using hnodup)).1 this
      simpa [mkBuyTrade] using hne
    have hrec : recordBuys st sym (b :: rest) = recordBuys st1 sym rest := rfl
    rw [hrec]
    have := ih st1 sym i (Q + b.quantity)
      ((Q * A + b.quantity * b.price) / (Q + b.quantity)) hfind1 hQ'
      (fun b' hb' => hpos b' (List.mem_cons_of_mem _ hb'))
      (List.nodup_cons.mp (by simpa using hnodup)).2 hfresh1
    rw [this]
    have hcancel : (Q + b.quantity) *
        ((Q * A + b.quantity * b.price) / (Q + b.quantity)) =
        Q * A + b.quantity * b.price := by
      rw [mul_comm]
      exact div_mul_cancel₀ _ hQ'.ne'
    have hnum : (Q + b.quantity) *
        ((Q * A + b.quantity * b.price) / (Q + b.quantity)) + sumCost rest =
        Q * A + sumCost (b :: rest) := by
      rw [hcancel]
      simp only [sumCost, List.map_cons, List.sum_cons]
      ring
    have hden : Q + b.quantity + sumQty rest = Q + sumQty (b :: rest) := by
      simp only [sumQty, List.map_cons, List.sum_cons]
      ring
    rw [hnum, hden]

/-- C1: `record_buy` with positive quantity and price creates a holding at
(quantity, price) when none exists for the symbol; when one exists it updates
it to quantity `old_qty + qty` and average entry price
`(old_qty·old_avg + qty·price)/(old_qty + qty)`; hence after any nonempty
sequence of buys of one symbol starting from no holding, the holding's
quantity is the total quantity bought and its `avg_entry_price` is the
quantity-weighted average of all buy prices so far. -/
theorem recordBuy_weighted_average_spec (st : LedgerState) (sym : String) :
    (∀ q p fees tid, 0 < q → 0 < p → tradeIdUsed st.trades tid = false →
      findHolding st.holdings sym = none →
      findHolding (recordBuy st sym q p fees tid).1.holdings sym =
        some ⟨st.nextHoldingId, sym, q, p⟩)
  ∧ (∀ q p fees tid h, 0 < q → 0 < p → tradeIdUsed st.trades tid = false →
      findHolding st.holdings sym = some h →
      findHolding (recordBuy st sym q p fees tid).1.holdings sym =
        some ⟨h.id, h.symbol, h.quantity + q,
          (h.quantity * h.avg_entry_price + q * p) / (h.quantity + q)⟩)
  ∧ (∀ buys : List BuyCall, buys ≠ [] →
      (∀ b ∈ buys, 0 < b.quantity ∧ 0 < b.price) →
      (buys.map BuyCall.tid).Nodup →
      (∀ b ∈ buys, tradeIdUsed st.trades b.tid = false) →
      findHolding st.holdings sym = none →
      findHolding (recordBuys st sym buys).holdings sym =
        some ⟨st.nextHoldingId, sym, sumQty buys, sumCost buys / sumQty buys⟩) := by
  have hcreate : ∀ q p fees tid, 0 < q → 0 < p →
      tradeIdUsed st.trades tid = false →
      findHolding st.holdings sym = none →
      findHolding (recordBuy st sym q p fees tid).1.holdings sym =
        some ⟨st.nextHoldingId, sym, q, p⟩ := by
    intro q p fees tid hq hp ht hn
    rw [recordBuy_eq st sym q p fees tid hq hp ht]
    simp only [update_holding_after_buy, hn]
    rw [findHolding_append_of_none hn]
    simp
  refine ⟨hcreate, ?_, ?_⟩
  · intro q p fees tid h hq hp ht hh
    rw [recordBuy_eq st sym q p fees tid hq hp ht]
    simp only [update_holding_after_buy, hh]
    exact findHolding_updateQtyAvg hh _ _
  · intro buys hne hpos hnodup hfresh hn
    match buys, hne with
    | b :: rest, _ =>
      have hb := hpos b (List.mem_cons_self _ _)
      have hfr := hfresh b (List.mem_cons_self _ _)
      have h1 := hcreate b.quantity b.price b.fees b.tid hb.1 hb.2 hfr hn
      have htr1 : (recordBuy st sym b.quantity b.price b.fees b.tid).1.trades =
          st.trades ++ [mkBuyTrade sym b.quantity b.price b.fees b.tid] := by
        rw [recordBuy_eq st sym b.quantity b.price b.fees b.tid hb.1 hb.2 hfr]
      have hfresh1 : ∀ b' ∈ rest,
          tradeIdUsed (recordBuy st sym b.quantity b.price b.fees b.tid).1.trades b'.tid = false := by
        intro b' hb'
        rw [htr1, tradeIdUsed_append, hfresh b' (List.mem_cons_of_mem _ hb'),
          Bool.false_or]
        have hne' : b.tid ≠ b'.tid := by
          intro hcontra
          have : b.tid ∈ rest.map BuyCall.tid := by
            rw [hcontra]
            exact List.mem_map_of_mem _ hb'
          exact (List.nodup_cons.mp (by simpa using hnodup)).1 this
        simpa [mkBuyTrade] using hne'
      have hrec : recordBuys st sym (b :: rest) =
          recordBuys (recordBuy st sym b.quantity b.price b.fees b.tid).1 sym rest := rfl
      rw [hrec]
      rw [recordBuys_weighted_aux rest _ sym st.nextHoldingId b.quantity b.price h1
        hb.1 (fun b' hb' => hpos b' (List.mem_cons_of_mem _ hb'))
        (List.nodup_cons.mp (by simpa using hnodup)).2 hfresh1]
      simp only [sumQty, sumCost, List.map_cons, List.sum_cons]

/-- Witness for C1: two buys of 2 units at 100 then 2 units at 200 leave a
holding of 4 units at weighted average price 150. -/
theorem recordBuy_weighted_average_witness :
    findHolding (recordBuys emptyLedger "AAPL"
        [⟨"t1", 2, 100, 0⟩, ⟨"t2", 2, 200, 0⟩]).holdings "AAPL" =
      some ⟨1, "AAPL", 4, 150⟩ := by
  have h := (recordBuy_weighted_average_spec emptyLedger "AAPL").2.2
    [⟨"t1", 2, 100, 0⟩, ⟨"t2", 2, 200, 0⟩]
    (by simp)
    (by intro b hb; simp only [List.mem_cons, List.not_mem_nil, or_false] at hb
        rcases hb with rfl | rfl <;> exact ⟨by norm_num, by norm_num⟩)
    (by decide)
    (by intro b hb; rfl)
    rfl
  rw [h]
  norm_num [sumQty, sumCost, emptyLedger]

/-- C2: a successful `record_sell` against a holding returns a trade whose
`realized_pnl` is `quantity·price − quantity·avg_entry_price − fees`; the
holding's quantity drops by the quantity sold; if the new quantity is ≤ 0 the
holding row is deleted, otherwise only its quantity changes and its
`avg_entry_price` is untouched. -/
theorem recordSell_success_spec (st : LedgerState) (sym : String) (q p fees : ℚ)
    (tid : String) (h : Holding)
    (hq : 0 < q) (hp : 0 < p)
    (hh : findHolding st.holdings sym = some h)
    (hle : q ≤ h.quantity)
    (ht : tradeIdUsed st.trades tid = false)
    (hnodup : (st.holdings.map Holding.symbol).Nodup) :
    (recordSell st sym q p fees tid).2 =
        .ok (mkSellTrade sym q p fees h.avg_entry_price tid)
  ∧ (mkSellTrade sym q p fees h.avg_entry_price tid).realized_pnl =
        some (q * p - q * h.avg_entry_price - fees)
  ∧ (h.quantity - q ≤ 0 →
        findHolding (recordSell st sym q p fees tid).1.holdings sym = none)
  ∧ (0 < h.quantity - q →
        findHolding (recordSell st sym q p fees tid).1.holdings sym =
          some ⟨h.id, h.symbol, h.quantity - q, h.avg_entry_price⟩) := by
  have hstep := recordSell_eq st sym q p fees tid h hq hp hh hle ht
  refine ⟨by rw [hstep], ?_, ?_, ?_⟩
  · simp only [mkSellTrade]
    congr 1
    ring
  · intro hzero
    rw [hstep]
    simp only [update_holding_after_sell, hh, if_pos hzero]
    exact findHolding_delete hnodup hh
  · intro hpos
    rw [hstep]
    simp only [update_holding_after_sell, hh, if_neg (not_le.mpr hpos)]
    exact findHolding_updateQty hh _

/-- Witness for C2 (the worked example of the spec): after buying 2 units of
AAPL at 100, selling 1 at 120 with no fees realizes P&L 20 and leaves a holding
of 1 unit at unchanged average price 100. -/
theorem recordSell_success_witness :
    (recordSell (recordBuy emptyLedger "AAPL" 2 100 0 "t1").1 "AAPL" 1 120 0 "t2").2 =
        .ok (mkSellTrade "AAPL" 1 120 0 100 "t2")
  ∧ (mkSellTrade "AAPL" 1 120 0 100 "t2").realized_pnl = some 20
  ∧ findHolding
        (recordSell (recordBuy emptyLedger "AAPL" 2 100 0 "t1").1 "AAPL" 1 120 0 "t2").1.holdings
        "AAPL" = some ⟨1, "AAPL", 1, 100⟩ := by
  have hst : (recordBuy emptyLedger "AAPL" 2 100 0 "t1").1 =
      ⟨[⟨1, "AAPL", 2, 100⟩], [mkBuyTrade "AAPL" 2 100 0 "t1"], [], 2⟩ := by
    rw [recordBuy_eq emptyLedger "AAPL" 2 100 0 "t1" (by norm_num) (by norm_num) rfl]
    rfl
  have h := recordSell_success_spec (recordBuy emptyLedger "AAPL" 2 100 0 "t1").1
    "AAPL" 1 120 0 "t2" ⟨1, "AAPL", 2, 100⟩
    (by norm_num) (by norm_num)
    (by rw [hst]; rfl)
    (by norm_num)
    (by rw [hst]; rfl)
    (by rw [hst]; simp)
  refine ⟨h.1, ?_, ?_⟩
  · rw [h.2.1]
    norm_num
  · rw [h.2.2.2 (by norm_num)]
    norm_num

/-- C3: `record_sell` fails with the no-such-holding error when no holding
exists for the symbol and with the insufficient-quantity error when the
quantity sold exceeds the held quantity; in both cases the returned state is
exactly the input state (no trade is persisted, no holding is mutated);
selling exactly the full held quantity is not a failure. -/
theorem recordSell_failure_spec (st : LedgerState) (sym : String) (q p fees : ℚ)
    (tid : String) (hq : 0 < q) (hp : 0 < p) :
    (findHolding st.holdings sym = none →
      recordSell st sym q p fees tid = (st, .error .noSuchHolding))
  ∧ (∀ h, findHolding st.holdings sym = some h → h.quantity < q →
      recordSell st sym q p fees tid = (st, .error .insufficientQuantity))
  ∧ (∀ h, findHolding st.holdings sym = some h → q = h.quantity →
      tradeIdUsed st.trades tid = false →
      (recordSell st sym q p fees tid).2 =
        .ok (mkSellTrade sym q p fees h.avg_entry_price tid)) := by
  refine ⟨?_, ?_, ?_⟩
  · intro hn
    simp [recordSell, hq.not_le, hp.not_le, hn]
  · intro h hh hlt
    simp [recordSell, hq.not_le, hp.not_le, hh, hlt]
  · intro h hh heq ht
    rw [recordSell_eq st sym q p fees tid h hq hp hh (le_of_eq heq) ht]

/-- Witness for C3: with only a 2-unit AAPL holding, selling MSFT fails with
the no-such-holding error, selling 3 units of AAPL fails with the
insufficient-quantity error (both leaving the state untouched), and selling
exactly 2 units succeeds. -/
theorem recordSell_failure_witness :
    recordSell (recordBuy emptyLedger "AAPL" 2 100 0 "t1").1 "MSFT" 1 50 0 "t2" =
        ((recordBuy emptyLedger "AAPL" 2 100 0 "t1").1, .error .noSuchHolding)
  ∧ recordSell (recordBuy emptyLedger "AAPL" 2 100 0 "t1").1 "AAPL" 3 50 0 "t2" =
        ((recordBuy emptyLedger "AAPL" 2 100 0 "t1").1, .error .insufficientQuantity)
  ∧ (recordSell (recordBuy emptyLedger "AAPL" 2 100 0 "t1").1 "AAPL" 2 50 0 "t2").2 =
        .ok (mkSellTrade "AAPL" 2 50 0 100 "t2") := by
  have hst : (recordBuy emptyLedger "AAPL" 2 100 0 "t1").1 =
      ⟨[⟨1, "AAPL", 2, 100⟩], [mkBuyTrade "AAPL" 2 100 0 "t1"], [], 2⟩ := by
    rw [recordBuy_eq emptyLedger "AAPL" 2 100 0 "t1" (by norm_num) (by norm_num) rfl]
    rfl
  refine ⟨?_, ?_, ?_⟩
  · exact (recordSell_failure_spec (recordBuy emptyLedger "AAPL" 2 100 0 "t1").1
      "MSFT" 1 50 0 "t2" (by norm_num) (by norm_num)).1 (by rw [hst]; rfl)
  · exact (recordSell_failure_spec (recordBuy emptyLedger "AAPL" 2 100 0 "t1").1
      "AAPL" 3 50 0 "t2" (by norm_num) (by norm_num)).2.1 ⟨1, "AAPL", 2, 100⟩
      (by rw [hst]; rfl) (by norm_num)
  · exact (recordSell_failure_spec (recordBuy emptyLedger "AAPL" 2 100 0 "t1").1
      "AAPL" 2 50 0 "t2" (by norm_num) (by norm_num)).2.2 ⟨1, "AAPL", 2, 100⟩
      (by rw [hst]; rfl) (by norm_num) (by rw [hst]; rfl)

/-- Replaying `record_buy` with a trade id already present in the `trades`
table leaves the state unchanged and raises (the UNIQUE-constraint violation
aborts the insert before the holding write). -/
theorem recordBuy_replay_of_used (st : LedgerState) (sym : String) (q p fees : ℚ)
    (tid : String) (ht : tradeIdUsed st.trades tid = true) :
    (recordBuy st sym q p fees tid).1 = st
  ∧ (recordBuy st sym q p fees tid).2.isOk = false := by
  by_cases hq : q ≤ 0
  · simp [recordBuy, hq, Except.isOk, Except.toBool]
  · by_cases hp : p ≤ 0
    · simp [recordBuy, hq, hp, Except.isOk, Except.toBool]
    · simp [recordBuy, hq, hp, saveTrade, mkBuyTrade, ht, Except.isOk, Except.toBool]

/-- Replaying `record_sell` with a trade id already present in the `trades`
table leaves the state unchanged and raises. -/
theorem recordSell_replay_of_used (st : LedgerState) (sym : String) (q p fees : ℚ)
    (tid : String) (ht : tradeIdUsed st.trades tid = true) :
    (recordSell st sym q p fees tid).1 = st
  ∧ (recordSell st sym q p fees tid).2.isOk = false := by
  by_cases hq : q ≤ 0
  · simp [recordSell, hq, Except.isOk, Except.toBool]
  · by_cases hp : p ≤ 0
    · simp [recordSell, hq, hp, Except.isOk, Except.toBool]
    · cases hfh : findHolding st.holdings sym with
      | none => simp [recordSell, hq, hp, hfh, Except.isOk, Except.toBool]
      | some h =>
        by_cases hlt : h.quantity < q
        · simp [recordSell, hq, hp, hfh, hlt, Except.isOk, Except.toBool]
        · simp [recordSell, hq, hp, hfh, hlt, saveTrade, mkSellTrade, ht,
            Except.isOk, Except.toBool]

/-- A successful `record_buy` leaves its trade id in the `trades` table. -/
theorem recordBuy_ok_tid_used (st : LedgerState) (sym : String) (q p fees : ℚ)
    (tid : String) (h : (recordBuy st sym q p fees tid).2.isOk = true) :
    tradeIdUsed (recordBuy st sym q p fees tid).1.trades tid = true := by
  by_cases hq : q ≤ 0
  · simp [recordBuy, hq, Except.isOk, Except.toBool] at h
  · by_cases hp : p ≤ 0
    · simp [recordBuy, hq, hp, Except.isOk, Except.toBool] at h
    · by_cases hdup : tradeIdUsed st.trades tid
      · simp [recordBuy, hq, hp, saveTrade, mkBuyTrade, hdup, Except.isOk,
          Except.toBool] at h
      · rw [recordBuy_eq st sym q p fees tid (not_le.mp hq) (not_le.mp hp)
          (by simpa using hdup)]
        simp [tradeIdUsed_append, mkBuyTrade]

/-- A successful `record_sell` leaves its trade id in the `trades` table. -/
theorem recordSell_ok_tid_used (st : LedgerState) (sym : String) (q p fees : ℚ)
    (tid : String) (h : (recordSell st sym q p fees tid).2.isOk = true) :
    tradeIdUsed (recordSell st sym q p fees tid).1.trades tid = true := by
  by_cases hq : q ≤ 0
  · simp [recordSell, hq, Except.isOk, Except.toBool] at h
  · by_cases hp : p ≤ 0
    · simp [recordSell, hq, hp, Except.isOk, Except.toBool] at h
    · cases hfh : findHolding st.holdings sym with
      | none => simp [recordSell, hq, hp, hfh, Except.isOk, Except.toBool] at h
      | some h0 =>
        by_cases hlt : h0.quantity < q
        · simp [recordSell, hq, hp, hfh, hlt, Except.isOk, Except.toBool] at h
        · by_cases hdup : tradeIdUsed st.trades tid
          · simp [recordSell, hq, hp, hfh, hlt, saveTrade, mkSellTrade, hdup,
              Except.isOk, Except.toBool] at h
          · rw [recordSell_eq st sym q p fees tid h0 (not_le.mp hq) (not_le.mp hp)
              hfh (not_lt.mp hlt) (by simpa using hdup)]
            simp [tradeIdUsed_append, mkSellTrade]

/-- C8: trade recording is idempotent on `trade_id` — after a successful
`record_buy` or `record_sell`, replaying either operation with the same
trade id leaves the state exactly as it was after the first application (the
UNIQUE constraint on `trade_id` makes the replayed insert fail before any
holding effect). -/
theorem trade_replay_idempotent (st : LedgerState) (sym sym' : String)
    (q p fees q' p' fees' : ℚ) (tid : String) :
    ((recordBuy st sym q p fees tid).2.isOk = true →
        (recordBuy (recordBuy st sym q p fees tid).1 sym' q' p' fees' tid).1 =
          (recordBuy st sym q p fees tid).1
      ∧ (recordSell (recordBuy st sym q p fees tid).1 sym' q' p' fees' tid).1 =
          (recordBuy st sym q p fees tid).1)
  ∧ ((recordSell st sym q p fees tid).2.isOk = true →
        (recordBuy (recordSell st sym q p fees tid).1 sym' q' p' fees' tid).1 =
          (recordSell st sym q p fees tid).1
      ∧ (recordSell (recordSell st sym q p fees tid).1 sym' q' p' fees' tid).1 =
          (recordSell st sym q p fees tid).1) := by
  constructor
  · intro hok
    have hused := recordBuy_ok_tid_used st sym q p fees tid hok
    exact ⟨(recordBuy_replay_of_used _ sym' q' p' fees' tid hused).1,
      (recordSell_replay_of_used _ sym' q' p' fees' tid hused).1⟩
  · intro hok
    have hused := recordSell_ok_tid_used st sym q p fees tid hok
    exact ⟨(recordBuy_replay_of_used _ sym' q' p' fees' tid hused).1,
      (recordSell_replay_of_used _ sym' q' p' fees' tid hused).1⟩

/-- Witness for C8: replaying the buy of 1 AAPL at 100 with the already-used
trade id `t1` does not change the ledger state. -/
theorem trade_replay_idempotent_witness :
    (recordBuy (recordBuy emptyLedger "AAPL" 1 100 0 "t1").1 "AAPL" 1 100 0 "t1").1 =
      (recordBuy emptyLedger "AAPL" 1 100 0 "t1").1 :=
  ((trade_replay_idempotent emptyLedger "AAPL" "AAPL" 1 100 0 1 100 0 "t1").1
    (by rw [recordBuy_eq emptyLedger "AAPL" 1 100 0 "t1" (by norm_num) (by norm_num) rfl]
        rfl)).1

/-- The accumulation loop of `get_portfolio_value`, related to a declarative
map/sum over the holdings. -/
theorem portfolio_foldl (lookup : String → Option ℚ) (l : List Holding) :
    ∀ (a0 : ℚ) (acc0 : List PositionData),
      l.foldl
        (fun (acc : ℚ × List PositionData) h =>
          let pd := mkPositionData lookup h
          (acc.1 + pd.market_value, acc.2 ++ [pd]))
        (a0, acc0) =
      (a0 + (l.map (fun h => (mkPositionData lookup h).market_value)).sum,
        acc0 ++ l.map (mkPositionData lookup)) := by
  induction l with
  | nil => simp
  | cons y rest ih =>
    intro a0 acc0
    simp only [List.foldl_cons, List.map_cons, List.sum_cons]
    rw [ih]
    simp [add_assoc]

/-- C9: `get_portfolio_value` builds one position per holding with
`market_value = quantity · current_price`, where an unavailable price is
treated as 0 (no failure); `total_equity` is the sum of market values,
`net_contributed = Σdeposits − Σwithdrawals` and
`total_pnl = total_equity − net_contributed`.  The closed conjuncts are the
spec's worked example: deposit 1000, buy 2 AAPL at 100, then at current price
100 the equity is 200 and net contributed is 1000. -/
theorem portfolio_value_spec (st : LedgerState) (lookup : String → Option ℚ) :
    (get_portfolio_value st lookup).positions = st.holdings.map (mkPositionData lookup)
  ∧ (∀ h : Holding, (mkPositionData lookup h).market_value =
        h.quantity * ((lookup h.symbol).getD 0))
  ∧ (get_portfolio_value st lookup).total_equity =
        (st.holdings.map (fun h => h.quantity * ((lookup h.symbol).getD 0))).sum
  ∧ (get_portfolio_value st lookup).net_contributed =
        sumFlows st.flows .DEPOSIT - sumFlows st.flows .WITHDRAWAL
  ∧ (get_portfolio_value st lookup).total_pnl =
        (get_portfolio_value st lookup).total_equity -
          (get_portfolio_value st lookup).net_contributed
  ∧ (get_portfolio_value
        (recordBuy (recordDeposit emptyLedger 1000).1 "AAPL" 2 100 0 "t1").1
        (fun s => if s = "AAPL" then some 100 else none)).total_equity = 200
  ∧ (get_portfolio_value
        (recordBuy (recordDeposit emptyLedger 1000).1 "AAPL" 2 100 0 "t1").1
        (fun s => if s = "AAPL" then some 100 else none)).net_contributed = 1000 := by
  refine ⟨?_, fun h => rfl, ?_, rfl, rfl, ?_, ?_⟩
  · simp only [get_portfolio_value]
    rw [portfolio_foldl]
    simp
  · simp only [get_portfolio_value]
    rw [portfolio_foldl]
    simp only [mkPositionData, zero_add, List.nil_append]
  · norm_num +decide [get_portfolio_value, recordBuy, recordDeposit, saveTrade,
      tradeIdUsed, emptyLedger, update_holding_after_buy, findHolding, mkBuyTrade,
      mkPositionData, sumFlows]
  · norm_num +decide [get_portfolio_value, recordBuy, recordDeposit, saveTrade,
      tradeIdUsed, emptyLedger, update_holding_after_buy, findHolding, mkBuyTrade,
      mkPositionData, sumFlows]

/-- C4 (demonstration of the code bug): `record_buy` commits the trade on one
sqlite connection before the holding write runs on another; when the holding
write faults, the observable state holds the committed BUY trade while the
holding a completed `record_buy` would have created is absent — a half-applied
buy, which atomicity forbids. -/
theorem recordBuy_fault_partial_write :
    recordBuyHoldingWriteFault emptyLedger "AAPL" 1 100 0 "t1" =
        some ⟨[], [mkBuyTrade "AAPL" 1 100 0 "t1"], [], 1⟩
  ∧ tradeIdUsed [mkBuyTrade "AAPL" 1 100 0 "t1"] "t1" = true
  ∧ findHolding ([] : List Holding) "AAPL" = none
  ∧ (recordBuy emptyLedger "AAPL" 1 100 0 "t1").1.holdings =
        [⟨1, "AAPL", 1, 100⟩] := by
  refine ⟨?_, by simp [tradeIdUsed, mkBuyTrade], rfl, ?_⟩
  · norm_num [recordBuyHoldingWriteFault, saveTrade, tradeIdUsed, emptyLedger]
  · rw [recordBuy_eq emptyLedger "AAPL" 1 100 0 "t1" (by norm_num) (by norm_num) rfl]
    rfl

/-- Counterexample to C5: with a LONG position held and market bias 0.5 (inside
[−1,1]), `make_decision` returns BUY — a position-opening action, refuting the
claim that a present position restricts the result to HOLD/CLOSE actions. -/
theorem decision_buy_with_position_counterexample :
    (-1 ≤ ((1:ℚ)/2) ∧ ((1:ℚ)/2) ≤ 1)
  ∧ (makeDecision (1/2) (some "LONG")).action = Action.BUY
  ∧ Action.BUY ≠ Action.HOLD
  ∧ Action.BUY ≠ Action.CLOSE := by
  refine ⟨by norm_num, ?_, by simp, by simp⟩
  norm_num [makeDecision, abs]

/-- C5 (amended): when a position is present the engine returns the single
CLOSE action exactly when (LONG and bias < −0.2) or (SHORT and bias > 0.2);
in every other case the entry rule's result stands unchanged, so BUY or SELL
can be returned while a position is held. -/
theorem decision_position_override_only (b : ℚ) (side : String) :
    (makeDecision b (some side)).action =
      if side = "LONG" ∧ b < -(2/10) then Action.CLOSE
      else if side = "SHORT" ∧ 2/10 < b then Action.CLOSE
      else (makeDecision b none).action := by
  by_cases hL : side = "LONG"
  · subst hL
    by_cases hb : b < -(2/10) <;> simp +decide [makeDecision, hb]
  · by_cases hS : side = "SHORT"
    · subst hS
      by_cases hb : 2/10 < b <;> simp +decide [makeDecision, hb]
    · simp [makeDecision, hL, hS]

/-- Counterexample to C6: at market bias −0.25 with a LONG position the code
returns the CLOSE action but confidence 0 (the override never writes
`confidence`, and the entry rule did not fire since |−0.25| ≤ 0.3), while the
claim demands confidence = |market_bias| = 0.25; the code also has no
CLOSE_LONG/CLOSE_SHORT actions, only the single string CLOSE. -/
theorem decision_close_confidence_counterexample :
    (makeDecision (-(1/4)) (some "LONG")).action = Action.CLOSE
  ∧ (makeDecision (-(1/4)) (some "LONG")).confidence = 0
  ∧ |(-(1/4) : ℚ)| ≠ 0 := by
  refine ⟨?_, ?_, by norm_num [abs]⟩ <;> norm_num [makeDecision, abs]

/-- C6 (amended): if LONG and bias < −0.2 the engine returns the single CLOSE
action with confidence carried over from the entry rule (|bias| when
|bias| > 0.3, else 0); mirrored for SHORT and bias > 0.2; in particular at
bias −0.5 with a LONG position it returns CLOSE with confidence 0.5. -/
theorem decision_close_override_spec (b : ℚ) :
    (b < -(2/10) →
        makeDecision b (some "LONG") =
          ⟨Action.CLOSE, if 3/10 < |b| then |b| else 0,
            "Closing long position due to bearish signals"⟩)
  ∧ (2/10 < b →
        makeDecision b (some "SHORT") =
          ⟨Action.CLOSE, if 3/10 < b then b else 0,
            "Closing short position due to bullish signals"⟩)
  ∧ makeDecision (-(1/2)) (some "LONG") =
      ⟨Action.CLOSE, 1/2, "Closing long position due to bearish signals"⟩ := by
  refine ⟨?_, ?_, by norm_num [makeDecision, abs]⟩
  · intro hb
    have hb0 : ¬ (0 < b) := by linarith
    by_cases habs : 3/10 < |b| <;> simp [makeDecision, hb, hb0, habs]
  · intro hb
    have hb0 : 0 < b := by linarith
    have habs : |b| = b := abs_of_pos hb0
    have hnl : ¬ (b < -(2/10)) := by linarith
    by_cases h3 : 3/10 < b
    · simp +decide [makeDecision, hb, hb0, habs, h3]
    · simp +decide [makeDecision, hb, hb0, habs, h3]

/-- Witness for C6 (amended): the LONG override at bias −0.5 and the SHORT
override at bias 0.5. -/
theorem decision_close_override_witness :
    makeDecision (-(1/2)) (some "LONG") =
      ⟨Action.CLOSE, if 3/10 < |(-(1/2) : ℚ)| then |(-(1/2) : ℚ)| else 0,
        "Closing long position due to bearish signals"⟩
  ∧ makeDecision (1/2) (some "SHORT") =
      ⟨Action.CLOSE, if 3/10 < (1/2 : ℚ) then (1/2 : ℚ) else 0,
        "Closing short position due to bullish signals"⟩ :=
  ⟨(decision_close_override_spec (-(1/2))).1 (by norm_num),
   (decision_close_override_spec (1/2)).2.1 (by norm_num)⟩

/-- C7: `validate_trade` rejects whenever the portfolio drawdown reaches the
configured maximum, with a reason string naming that threshold, regardless of
the proposed trade's action; below the threshold the trade is approved. -/
theorem riskgate_drawdown_spec (m dd : ℚ) (act : String) :
    (m ≤ dd → validate_trade m act dd = ⟨false, maxDrawdownRejectReason m⟩)
  ∧ (dd < m → validate_trade m act dd = ⟨true, "Trade meets risk parameters"⟩) :=
  ⟨fun h => by simp [validate_trade, h],
   fun h => by simp [validate_trade, not_le.mpr h]⟩

/-- Witness for C7: at max drawdown 20%, a drawdown of 25% is rejected with the
threshold-naming reason and a drawdown of 10% is approved. -/
theorem riskgate_drawdown_witness :
    validate_trade (1/5) "BUY" (1/4) = ⟨false, maxDrawdownRejectReason (1/5)⟩
  ∧ validate_trade (1/5) "BUY" (1/10) = ⟨true, "Trade meets risk parameters"⟩ :=
  ⟨(riskgate_drawdown_spec (1/5) (1/4) "BUY").1 (by norm_num),
   (riskgate_drawdown_spec (1/5) (1/10) "BUY").2 (by norm_num)⟩

/-- C10: for a symbol that is not already upper-case, `record_buy` stores the
trade under the upper-cased symbol but keys the holding by the exact string;
consequently a subsequent `record_sell` under the upper-cased symbol fails with
the no-such-holding error even though a trade for that upper-cased symbol
exists, and buying the exact string and then its upper-cased form creates two
distinct holdings for the same ticker. -/
theorem symbol_case_mismatch_spec (st : LedgerState) (sym : String)
    (q p fees q2 p2 fees2 q3 p3 fees3 : ℚ) (t1 t2 t3 : String)
    (hcase : pyUpper sym ≠ sym)
    (hn1 : findHolding st.holdings sym = none)
    (hn2 : findHolding st.holdings (pyUpper sym) = none)
    (hq : 0 < q) (hp : 0 < p) (hq2 : 0 < q2) (hp2 : 0 < p2)
    (hq3 : 0 < q3) (hp3 : 0 < p3)
    (ht1 : tradeIdUsed st.trades t1 = false)
    (ht3 : tradeIdUsed (recordBuy st sym q p fees t1).1.trades t3 = false) :
    (recordBuy st sym q p fees t1).2 = .ok (mkBuyTrade sym q p fees t1)
  ∧ (mkBuyTrade sym q p fees t1).symbol = pyUpper sym
  ∧ mkBuyTrade sym q p fees t1 ∈ (recordBuy st sym q p fees t1).1.trades
  ∧ findHolding (recordBuy st sym q p fees t1).1.holdings sym =
      some ⟨st.nextHoldingId, sym, q, p⟩
  ∧ recordSell (recordBuy st sym q p fees t1).1 (pyUpper sym) q2 p2 fees2 t2 =
      ((recordBuy st sym q p fees t1).1, .error .noSuchHolding)
  ∧ findHolding
      (recordBuy (recordBuy st sym q p fees t1).1 (pyUpper sym) q3 p3 fees3 t3).1.holdings
      sym = some ⟨st.nextHoldingId, sym, q, p⟩
  ∧ findHolding
      (recordBuy (recordBuy st sym q p fees t1).1 (pyUpper sym) q3 p3 fees3 t3).1.holdings
      (pyUpper sym) =
      some ⟨(recordBuy st sym q p fees t1).1.nextHoldingId, pyUpper sym, q3, p3⟩ := by
  have hstep := recordBuy_eq st sym q p fees t1 hq hp ht1
  have hh1 : (recordBuy st sym q p fees t1).1.holdings =
      st.holdings ++ [⟨st.nextHoldingId, sym, q, p⟩] := by
    rw [hstep]
    simp only [update_holding_after_buy, hn1]
  have hfind_sym : findHolding (recordBuy st sym q p fees t1).1.holdings sym =
      some ⟨st.nextHoldingId, sym, q, p⟩ := by
    rw [hh1, findHolding_append_of_none hn1]
    simp
  have hfind_upper : findHolding (recordBuy st sym q p fees t1).1.holdings
      (pyUpper sym) = none := by
    rw [hh1, findHolding_append_ne (Ne.symm hcase)]
    exact hn2
  have hstep2 := recordBuy_eq (recordBuy st sym q p fees t1).1 (pyUpper sym)
    q3 p3 fees3 t3 hq3 hp3 ht3
  have hh2 : (recordBuy (recordBuy st sym q p fees t1).1 (pyUpper sym) q3 p3 fees3 t3).1.holdings =
      (recordBuy st sym q p fees t1).1.holdings ++
        [⟨(recordBuy st sym q p fees t1).1.nextHoldingId, pyUpper sym, q3, p3⟩] := by
    rw [hstep2]
    simp only [update_holding_after_buy, hfind_upper]
  refine ⟨by rw [hstep], rfl, ?_, hfind_sym, ?_, ?_, ?_⟩
  · rw [hstep]
    simp
  · simp [recordSell, hq2.not_le, hp2.not_le, hfind_upper]
  · rw [hh2, findHolding_append_of_some hfind_sym]
  · rw [hh2, findHolding_append_of_none hfind_upper]
    simp

/-- Witness for C10: buying `"aapl"` records its trade under `"AAPL"` yet a
sell of `"AAPL"` fails with the no-such-holding error, and a buy of `"AAPL"`
after the buy of `"aapl"` yields two separate holdings. -/
theorem symbol_case_mismatch_witness :
    recordSell (recordBuy emptyLedger "aapl" 1 100 0 "t1").1 (pyUpper "aapl") 1 100 0 "t2" =
        ((recordBuy emptyLedger "aapl" 1 100 0 "t1").1, .error .noSuchHolding)
  ∧ (mkBuyTrade "aapl" 1 100 0 "t1").symbol = pyUpper "aapl"
  ∧ findHolding
        (recordBuy (recordBuy emptyLedger "aapl" 1 100 0 "t1").1 (pyUpper "aapl") 1 100 0 "t3").1.holdings
        "aapl" = some ⟨1, "aapl", 1, 100⟩
  ∧ findHolding
        (recordBuy (recordBuy emptyLedger "aapl" 1 100 0 "t1").1 (pyUpper "aapl") 1 100 0 "t3").1.holdings
        (pyUpper "aapl") =
        some ⟨(recordBuy emptyLedger "aapl" 1 100 0 "t1").1.nextHoldingId, pyUpper "aapl", 1, 100⟩ := by
  have h := symbol_case_mismatch_spec emptyLedger "aapl" 1 100 0 1 100 0 1 100 0
    "t1" "t2" "t3"
    (by decide) rfl rfl
    (by norm_num) (by norm_num) (by norm_num) (by norm_num) (by norm_num) (by norm_num)
    rfl
    (by rw [recordBuy_eq emptyLedger "aapl" 1 100 0 "t1" (by norm_num) (by norm_num) rfl]
        simp [tradeIdUsed, mkBuyTrade, emptyLedger])
  exact ⟨h.2.2.2.2.1, h.2.1, h.2.2.2.2.2.1, h.2.2.2.2.2.2⟩

end TradeSystem
